import Mathlib

/-!
Shallow embedding of the cluster control plane in `distributedsystems.py`.

The sqlite `nodes` table is a list of `Node` records (the `cpu` column is the
node's available cpu; the code never stores a separate total), the `pods`
table is a list of `Pod` records, and the `settings` table is the pair
`strategy` / `leader`.  Each Flask handler becomes a function from a
`ClusterState` (plus its request arguments and the current time) to a
response paired with the successor state.  Times are integers.
-/

namespace KubeSim

structure Node where
  node_id : String
  cpu : Int
  last_heartbeat : Int
  status : String
  deriving DecidableEq, Repr

structure Pod where
  pod_id : String
  cpu : Int
  node_id : Option String
  status : String
  deriving DecidableEq, Repr

structure ClusterState where
  nodes : List Node
  pods : List Pod
  strategy : String
  leader : String
  deriving DecidableEq, Repr

/-- HTTP-level outcome of a handler: 200, 400, or 404. -/
inductive ApiResult where
  | ok
  | badRequest
  | notFound
  deriving DecidableEq, Repr

/-- Outcome of `launch_pod`. -/
inductive LaunchResult where
  | duplicatePod
  | insufficientCapacity
  | launched (node : String)
  | noFeasibleNode
  deriving DecidableEq, Repr

/-- `get_current_strategy`: reads the `strategy` settings row. -/
def get_current_strategy (s : ClusterState) : String := s.strategy

/-- `set_strategy`: `request.json.get("strategy", "best_fit")` stored verbatim;
the default applies only when the field is absent. -/
def set_strategy (s : ClusterState) (strat : Option String) : ClusterState :=
  { s with strategy := strat.getD "best_fit" }

/-- `SELECT node_id, cpu, status FROM nodes WHERE status = 'healthy'`. -/
def healthyNodes (s : ClusterState) : List Node :=
  s.nodes.filter (fun n => decide (n.status = "healthy"))

/-- The `first_fit` loop of `schedule_pod`: first healthy node with enough cpu. -/
def firstFitSel (req : Int) : List Node → Option String
  | [] => none
  | n :: rest => if req ≤ n.cpu then some n.node_id else firstFitSel req rest

/-- The `best_fit` loop of `schedule_pod`: running minimum with strict `<`;
`minCpu = none` plays the role of the initial `float("inf")`. -/
def bestFitGo (req : Int) (best : Option String) (minCpu : Option Int) :
    List Node → Option String
  | [] => best
  | n :: rest =>
    if req ≤ n.cpu ∧ (∀ m ∈ minCpu, n.cpu < m) then
      bestFitGo req (some n.node_id) (some n.cpu) rest
    else
      bestFitGo req best minCpu rest

/-- The `worst_fit` loop of `schedule_pod`: running maximum of `cpu - req`,
initialised to `-1`. -/
def worstFitGo (req : Int) (worst : Option String) (maxLeft : Int) :
    List Node → Option String
  | [] => worst
  | n :: rest =>
    if req ≤ n.cpu ∧ maxLeft < n.cpu - req then
      worstFitGo req (some n.node_id) (n.cpu - req) rest
    else
      worstFitGo req worst maxLeft rest

/-- Strategy dispatch in `schedule_pod`; an unrecognised strategy leaves
`assigned_node = None`. -/
def selectNode (strategy : String) (req : Int) (nodes : List Node) : Option String :=
  if strategy = "first_fit" then firstFitSel req nodes
  else if strategy = "best_fit" then bestFitGo req none none nodes
  else if strategy = "worst_fit" then worstFitGo req none (-1) nodes
  else none

/-- `schedule_pod(pod_id, cpu_req)`.  Note the Python truthiness test
`if assigned_node:`: a selected node whose id is the empty string is treated
like no selection.  The inner `find?` models the fresh
`SELECT cpu FROM nodes WHERE node_id = ?`; its `none` branch is unreachable
because the selected id always comes from the node table. -/
def schedule_pod (s : ClusterState) (pid : String) (req : Int) :
    Option String × ClusterState :=
  match selectNode s.strategy req (healthyNodes s) with
  | none => (none, s)
  | some nid =>
    if nid = "" then (none, s)
    else
      match s.nodes.find? (fun n => decide (n.node_id = nid)) with
      | none => (none, s)
      | some n0 =>
        (some nid,
          { s with
            nodes := s.nodes.map fun n =>
              if n.node_id = nid then { n with cpu := n0.cpu - req } else n,
            pods := s.pods.map fun p =>
              if p.pod_id = pid then { p with node_id := some nid, status := "running" }
              else p })

/-- `SELECT SUM(cpu) FROM nodes WHERE now - last_heartbeat <= 30` with the
`or 0` defaulting; status is not consulted. -/
def admissionCpu (s : ClusterState) (now : Int) : Int :=
  ((s.nodes.filter (fun n => decide (now - n.last_heartbeat ≤ 30))).map Node.cpu).sum

/-- The row inserted by `launch_pod`: `(pod_id, cpu, NULL, 'pending')`. -/
def newPod (pid : String) (req : Int) : Pod :=
  { pod_id := pid, cpu := req, node_id := none, status := "pending" }

/-- `launch_pod`: duplicate check, admission check, insertion of the pending
pod, then `schedule_pod`; the inserted pod is never rolled back. -/
def launch_pod (s : ClusterState) (pid : String) (req : Int) (now : Int) :
    LaunchResult × ClusterState :=
  if s.pods.any (fun p => decide (p.pod_id = pid)) then (.duplicatePod, s)
  else if admissionCpu s now < req then (.insufficientCapacity, s)
  else
    match schedule_pod { s with pods := s.pods ++ [newPod pid req] } pid req with
    | (some nid, _s2) => (.launched nid, _s2)
    | (none, _s2) => (.noFeasibleNode, _s2)

/-- `heartbeat`: a missing or empty `node_id` is rejected (`if not node:`);
otherwise only `last_heartbeat` is updated — the status column is untouched
and no existence check is made. -/
def heartbeat (s : ClusterState) (node : Option String) (now : Int) :
    ApiResult × ClusterState :=
  match node with
  | none => (.badRequest, s)
  | some nid =>
    if nid = "" then (.badRequest, s)
    else
      (.ok,
        { s with
          nodes := s.nodes.map fun n =>
            if n.node_id = nid then { n with last_heartbeat := now } else n })

/-- State change of `fail_node` (also one iteration of the failure-detector
loop): mark the node unhealthy and evict its pods. -/
def fail_node_state (s : ClusterState) (nid : String) : ClusterState :=
  { s with
    nodes := s.nodes.map fun n =>
      if n.node_id = nid then { n with status := "unhealthy" } else n,
    pods := s.pods.map fun p =>
      if p.node_id = some nid then { p with node_id := none, status := "pending" }
      else p }

/-- `fail_node`: no existence check; always answers 200. -/
def fail_node (s : ClusterState) (nid : String) : ApiResult × ClusterState :=
  (.ok, fail_node_state s nid)

/-- `recover_node`: no existence check; always answers 200. -/
def recover_node (s : ClusterState) (nid : String) (now : Int) :
    ApiResult × ClusterState :=
  (.ok,
    { s with
      nodes := s.nodes.map fun n =>
        if n.node_id = nid then { n with status := "healthy", last_heartbeat := now }
        else n })

/-- `SELECT node_id FROM nodes WHERE now - last_heartbeat > 30` — the stale
set of one `heartbeat_checker` sweep, computed before the loop mutates. -/
def staleNodeIds (s : ClusterState) (now : Int) : List String :=
  (s.nodes.filter (fun n => decide (30 < now - n.last_heartbeat))).map Node.node_id

/-- One sweep of the `heartbeat_checker` background loop: for each stale node,
the same two updates as `fail_node`. -/
def heartbeat_checker (s : ClusterState) (now : Int) : ClusterState :=
  (staleNodeIds s now).foldl fail_node_state s

/-- `SELECT pod_id, cpu FROM pods WHERE node_id IS NULL` in `auto_reschedule`. -/
def reschedule_candidates (s : ClusterState) : List Pod :=
  s.pods.filter (fun p => decide (p.node_id = none))

/-- Lexicographic comparison of char lists by code point, modelling sqlite's
BINARY collation on the UTF-8 bytes (UTF-8 byte order coincides with code
point order). -/
def charListLt : List Char → List Char → Bool
  | [], [] => false
  | [], _ :: _ => true
  | _ :: _, [] => false
  | a :: as, b :: bs =>
    if a.toNat < b.toNat then true
    else if b.toNat < a.toNat then false
    else charListLt as bs

/-- `a` sorts strictly before `b` under sqlite's default collation. -/
def strLt (a b : String) : Bool := charListLt a.data b.data

/-- Minimum of a list of ids, modelling
`SELECT node_id FROM nodes WHERE status='healthy' ORDER BY node_id ASC LIMIT 1`. -/
def minId : List String → Option String
  | [] => none
  | x :: xs =>
    match minId xs with
    | none => some x
    | some y => if strLt y x then some y else some x

/-- The `/leader` handler: sticky if the recorded leader is a healthy node,
else elect the smallest healthy id; `if new_leader:` means an empty elected id
is returned but not persisted, while the sentinel string `"none"` is truthy
and does get persisted. -/
def leaderOp (s : ClusterState) : String × ClusterState :=
  if s.leader ≠ "" ∧ s.nodes.any (fun n => decide (n.node_id = s.leader ∧ n.status = "healthy")) then
    (s.leader, s)
  else
    let newL := (minId ((healthyNodes s).map Node.node_id)).getD "none"
    if newL ≠ "" then (newL, { s with leader := newL }) else (newL, s)

/-- Sum of the cpu requests of the pods assigned to node `nid`. -/
def podCpuSum (pods : List Pod) (nid : String) : Int :=
  (pods.map (fun p => if p.node_id = some nid then p.cpu else 0)).sum

/-- The §3/§8 bookkeeping invariant.  The code keeps only the node's current
(available) cpu, so the constant `totalCpu` of each node is a ghost parameter
`total : String → Int`: for every healthy node, available cpu = total cpu
minus the requests of the pods assigned to it. -/
def Inv (total : String → Int) (s : ClusterState) : Prop :=
  ∀ n ∈ s.nodes, n.status = "healthy" →
    n.cpu = total n.node_id - podCpuSum s.pods n.node_id

instance (total : String → Int) (s : ClusterState) : Decidable (Inv total s) := by
  unfold Inv; infer_instance

/-- The scheduling / eviction transitions of the system.  `place` carries the
facts true at both of its in-repo call sites (`launch_pod` inserts the pending
pod first; `auto_reschedule` passes the stored cpu of a pod with no node):
the scheduled pod exists, is pending, and its stored cpu equals the request;
ids are unique as the sqlite tables key on them. -/
inductive ClusterStep : ClusterState → ClusterState → Prop where
  | place (s : ClusterState) (pid : String) (req : Int) (p0 : Pod)
      (hnodes : (s.nodes.map Node.node_id).Nodup)
      (hpods : (s.pods.map Pod.pod_id).Nodup)
      (hmem : p0 ∈ s.pods) (hpid : p0.pod_id = pid)
      (hpending : p0.node_id = none) (hcpu : p0.cpu = req) :
      ClusterStep s (schedule_pod s pid req).2
  | fail (s : ClusterState) (nid : String) :
      ClusterStep s (fail_node_state s nid)
  | sweep (s : ClusterState) (now : Int) :
      ClusterStep s (heartbeat_checker s now)

/-- Nodes that can hold a request of `req` cpu. -/
def feasibleNodes (req : Int) (nodes : List Node) : List Node :=
  nodes.filter (fun n => decide (req ≤ n.cpu))

/-- Specification-side selector, following the spec's words for `best_fit`:
the node with the smallest availableCpu, ties broken in favour of the earlier
node in iteration order. -/
def leftmostMinCpu : List Node → Option Node
  | [] => none
  | n :: rest =>
    match leftmostMinCpu rest with
    | none => some n
    | some m => if n.cpu ≤ m.cpu then some n else some m

/-- Specification-side `best_fit`: leftmost minimum-cpu feasible node. -/
def bestFitSpec (req : Int) (nodes : List Node) : Option Node :=
  leftmostMinCpu (feasibleNodes req nodes)

/-! Concrete states used by witnesses and counterexamples. -/

def exEmpty : ClusterState := ⟨[], [], "best_fit", "none"⟩

def exUnhealthy : ClusterState := ⟨[⟨"a", 5, 0, "unhealthy"⟩], [], "best_fit", "none"⟩

def exHb : ClusterState :=
  ⟨[⟨"a", 5, 0, "unhealthy"⟩, ⟨"b", 7, 2, "healthy"⟩], [], "best_fit", "none"⟩

def exPresent : ClusterState :=
  ⟨[⟨"b", 4, 0, "healthy"⟩], [⟨"q", 1, some "b", "running"⟩], "best_fit", "none"⟩

def exDup : ClusterState :=
  ⟨[⟨"b", 4, 0, "healthy"⟩], [⟨"p1", 2, some "b", "running"⟩], "best_fit", "none"⟩

def exAdm : ClusterState :=
  ⟨[⟨"a", 5, 0, "healthy"⟩, ⟨"b", 5, 0, "healthy"⟩], [], "best_fit", "none"⟩

def exRR : ClusterState :=
  ⟨[⟨"a", 5, 0, "healthy"⟩], [⟨"p1", 2, none, "pending"⟩], "round_robin", "none"⟩

def exBestFit : ClusterState :=
  ⟨[⟨"A", 10, 0, "healthy"⟩, ⟨"B", 4, 0, "healthy"⟩],
   [⟨"p1", 3, none, "pending"⟩], "best_fit", "none"⟩

def exEmptyId : ClusterState :=
  ⟨[⟨"", 4, 0, "healthy"⟩], [⟨"p", 3, none, "pending"⟩], "best_fit", "none"⟩

def exLeaderEmptyId : ClusterState :=
  ⟨[⟨"", 1, 0, "healthy"⟩], [], "best_fit", "none"⟩

def exLeader : ClusterState :=
  ⟨[⟨"a", 5, 0, "unhealthy"⟩, ⟨"c", 5, 0, "healthy"⟩, ⟨"b", 5, 0, "healthy"⟩],
   [], "best_fit", "a"⟩

def exInv : ClusterState :=
  ⟨[⟨"a", 2, 0, "healthy"⟩, ⟨"b", 5, 0, "healthy"⟩],
   [⟨"p1", 3, some "a", "running"⟩], "best_fit", "none"⟩

def exTotal : String → Int := fun nid => if nid = "a" then 5 else 5

def exNoFit : ClusterState :=
  ⟨[⟨"a", 3, 0, "healthy"⟩, ⟨"b", 3, 0, "healthy"⟩], [], "best_fit", "none"⟩

/-! Helper lemmas. -/

theorem map_eq_self_of_forall {α : Type} {l : List α} {f : α → α}
    (h : ∀ a ∈ l, f a = a) : l.map f = l := by
  induction l with
  | nil => rfl
  | cons x xs ih =>
    rw [List.map_cons, h x (List.mem_cons_self x xs),
      ih (fun a ha => h a (List.mem_cons_of_mem x ha))]

/-- When `schedule_pod` reports no node, it leaves the state untouched. -/
theorem schedule_pod_none_frame (s : ClusterState) (pid : String) (req : Int)
    (h : (schedule_pod s pid req).1 = none) :
    schedule_pod s pid req = (none, s) := by
  unfold schedule_pod at h ⊢
  cases hsel : selectNode s.strategy req (healthyNodes s) with
  | none => rfl
  | some nid =>
    rw [hsel] at h
    simp only [] at h ⊢
    by_cases hne : nid = ""
    · rw [if_pos hne]
    · rw [if_neg hne] at h ⊢
      cases hfind : s.nodes.find? (fun n => decide (n.node_id = nid)) with
      | none => rfl
      | some n0 =>
        rw [hfind] at h
        simp only [] at h
        exact absurd h (by simp)

/-! Claim theorems. -/

/-- C2, counterexample: heartbeating the unhealthy node `a` refreshes its
timestamp but leaves its status `"unhealthy"`, contradicting the claim that a
heartbeat by itself resurrects a previously-unhealthy node. -/
theorem c2_counterexample :
    (heartbeat exUnhealthy (some "a") 100).2.nodes = [⟨"a", 5, 100, "unhealthy"⟩] ∧
    "unhealthy" ≠ "healthy" := by
  constructor
  · rfl
  · decide

/-- C2, amended: for a non-empty node id, `heartbeat` answers 200, sets the
matching node's `last_heartbeat` to now, and changes nothing else — in
particular every node's status is exactly what it was before. -/
theorem c2_heartbeat_refreshes_only (s : ClusterState) (nid : String) (now : Int)
    (hne : nid ≠ "") :
    (heartbeat s (some nid) now).1 = .ok ∧
    (heartbeat s (some nid) now).2.pods = s.pods ∧
    (heartbeat s (some nid) now).2.nodes =
      (s.nodes.map fun n =>
        if n.node_id = nid then { n with last_heartbeat := now } else n) ∧
    (heartbeat s (some nid) now).2.nodes.map Node.status = s.nodes.map Node.status := by
  unfold heartbeat
  simp only []
  rw [if_neg hne]
  refine ⟨rfl, rfl, rfl, ?_⟩
  rw [List.map_map]
  exact List.map_congr_left fun n _ => by
    by_cases h : n.node_id = nid <;> simp [h]

theorem c2_witness :
    ("a" : String) ≠ "" ∧
    (heartbeat exHb (some "a") 50).2.nodes.map Node.status =
      exHb.nodes.map Node.status :=
  ⟨by decide, (c2_heartbeat_refreshes_only exHb "a" 50 (by decide)).2.2.2⟩

/-- C3, counterexample: with an empty node table, `heartbeat`, `fail_node` and
`recover_node` all answer 200 for the absent id `"x"` instead of a
`NodeNotFound` error. -/
theorem c3_counterexample :
    (heartbeat exEmpty (some "x") 5).1 = ApiResult.ok ∧
    (fail_node exEmpty "x").1 = ApiResult.ok ∧
    (recover_node exEmpty "x" 5).1 = ApiResult.ok ∧
    ApiResult.ok ≠ ApiResult.notFound := by
  refine ⟨rfl, rfl, rfl, by decide⟩

/-- C3, amended: none of `heartbeat`, `fail_node`, `recover_node` checks that
the node exists; for an id no node (and, for `fail_node`, no pod reference)
carries, each reports success and leaves the state unchanged. -/
theorem c3_absent_node_silent_success (s : ClusterState) (nid : String) (now : Int)
    (hne : nid ≠ "")
    (hnode : ∀ n ∈ s.nodes, n.node_id ≠ nid)
    (hpod : ∀ p ∈ s.pods, p.node_id ≠ some nid) :
    heartbeat s (some nid) now = (.ok, s) ∧
    fail_node s nid = (.ok, s) ∧
    recover_node s nid now = (.ok, s) := by
  have hn1 : (s.nodes.map fun n =>
      if n.node_id = nid then { n with last_heartbeat := now } else n) = s.nodes :=
    map_eq_self_of_forall fun n hn => if_neg (hnode n hn)
  have hn2 : (s.nodes.map fun n =>
      if n.node_id = nid then { n with status := "unhealthy" } else n) = s.nodes :=
    map_eq_self_of_forall fun n hn => if_neg (hnode n hn)
  have hn3 : (s.nodes.map fun n =>
      if n.node_id = nid then { n with status := "healthy", last_heartbeat := now } else n) =
      s.nodes :=
    map_eq_self_of_forall fun n hn => if_neg (hnode n hn)
  have hp : (s.pods.map fun p =>
      if p.node_id = some nid then { p with node_id := none, status := "pending" } else p) =
      s.pods :=
    map_eq_self_of_forall fun p hps => if_neg (hpod p hps)
  refine ⟨?_, ?_, ?_⟩
  · unfold heartbeat
    simp only []
    rw [if_neg hne, hn1]
  · unfold fail_node fail_node_state
    rw [hn2, hp]
  · unfold recover_node
    rw [hn3]

theorem c3_witness :
    ("x" : String) ≠ "" ∧
    heartbeat exPresent (some "x") 9 = (.ok, exPresent) ∧
    fail_node exPresent "x" = (.ok, exPresent) ∧
    recover_node exPresent "x" 9 = (.ok, exPresent) := by
  have h := c3_absent_node_silent_success exPresent "x" 9 (by decide)
    (by decide) (by decide)
  exact ⟨by decide, h.1, h.2.1, h.2.2⟩

/-- C5, confirmed: for a fresh pod id, `launch_pod` fails with
`InsufficientClusterCapacity` exactly when the sum of cpu over
heartbeat-recent nodes (status ignored) is below the request, and in that case
nothing is mutated — no pod is inserted and no placement is attempted. -/
theorem c5_admission_gate (s : ClusterState) (pid : String) (req now : Int)
    (hfresh : ∀ p ∈ s.pods, p.pod_id ≠ pid) :
    ((launch_pod s pid req now).1 = .insufficientCapacity ↔ admissionCpu s now < req) ∧
    (admissionCpu s now < req → launch_pod s pid req now = (.insufficientCapacity, s)) := by
  have hany : s.pods.any (fun p => decide (p.pod_id = pid)) = false :=
    List.any_eq_false.mpr fun p hp => by simpa using hfresh p hp
  unfold launch_pod
  rw [hany]
  by_cases hlt : admissionCpu s now < req
  · simp [hlt]
  · rw [if_neg hlt]
    refine ⟨?_, fun h => absurd h hlt⟩
    simp only [Bool.false_eq_true, if_false]
    cases hres : schedule_pod { s with pods := s.pods ++ [newPod pid req] } pid req with
    | mk fst snd =>
      cases fst <;> simp only [] <;> simp [hlt]

theorem c5_witness :
    ((launch_pod exAdm "p1" 11 0).1 = .insufficientCapacity ↔ admissionCpu exAdm 0 < 11) ∧
    launch_pod exAdm "p1" 11 0 = (.insufficientCapacity, exAdm) :=
  ⟨(c5_admission_gate exAdm "p1" 11 0 (by decide)).1,
   (c5_admission_gate exAdm "p1" 11 0 (by decide)).2 (by decide)⟩

/-- C7, counterexample: `set_strategy` with the unrecognised name
`"round_robin"` stores it verbatim, so `get_current_strategy` returns
`"round_robin"`, not `"best_fit"` as the claim demands. -/
theorem c7_counterexample :
    get_current_strategy (set_strategy exEmpty (some "round_robin")) = "round_robin" ∧
    "round_robin" ≠ "best_fit" := ⟨rfl, by decide⟩

/-- C7, amended: `set_strategy` stores whatever name is supplied, recognised
or not, and `get_current_strategy` returns the stored name; the `best_fit`
default applies only when the strategy field is omitted from the request. -/
theorem c7_set_strategy_verbatim (s : ClusterState) (name : String) :
    get_current_strategy (set_strategy s (some name)) = name ∧
    get_current_strategy (set_strategy s none) = "best_fit" := ⟨rfl, rfl⟩

/-- C8, confirmed: launching a pod whose id already exists fails with
`DuplicatePod` and returns the state unchanged — in particular no node's
available cpu moves. -/
theorem c8_duplicate_pod_rejected (s : ClusterState) (pid : String) (req now : Int)
    (hdup : ∃ p ∈ s.pods, p.pod_id = pid) :
    launch_pod s pid req now = (.duplicatePod, s) := by
  have hany : s.pods.any (fun p => decide (p.pod_id = pid)) = true := by
    obtain ⟨p, hp, he⟩ := hdup
    exact List.any_eq_true.mpr ⟨p, hp, by simpa using he⟩
  unfold launch_pod
  rw [hany]
  rfl

theorem c8_witness :
    (∃ p ∈ exDup.pods, p.pod_id = "p1") ∧
    launch_pod exDup "p1" 2 0 = (.duplicatePod, exDup) :=
  ⟨by decide, c8_duplicate_pod_rejected exDup "p1" 2 0 (by decide)⟩

/-- C9, confirmed: under a stored strategy other than `first_fit`, `best_fit`
or `worst_fit`, `schedule_pod` selects nothing and returns the state
unchanged. -/
theorem c9_unknown_strategy_noop (s : ClusterState) (pid : String) (req : Int)
    (h1 : s.strategy ≠ "first_fit") (h2 : s.strategy ≠ "best_fit")
    (h3 : s.strategy ≠ "worst_fit") :
    schedule_pod s pid req = (none, s) := by
  unfold schedule_pod selectNode
  rw [if_neg h1, if_neg h2, if_neg h3]

theorem c9_witness :
    exRR.strategy ≠ "first_fit" ∧
    schedule_pod exRR "p1" 2 = (none, exRR) :=
  ⟨by decide, c9_unknown_strategy_noop exRR "p1" 2 (by decide) (by decide) (by decide)⟩

/-- C10, confirmed: when the duplicate and admission checks pass but the
scheduler finds no node, `launch_pod` reports `NoFeasibleNode` while the pod
row it inserted stays behind — pending, unassigned, and picked up by the
`auto_reschedule` query. -/
theorem c10_failed_launch_keeps_pod (s : ClusterState) (pid : String) (req now : Int)
    (hfresh : ∀ p ∈ s.pods, p.pod_id ≠ pid)
    (hadm : ¬ admissionCpu s now < req)
    (hnofit : (schedule_pod { s with pods := s.pods ++ [newPod pid req] } pid req).1 = none) :
    launch_pod s pid req now =
      (.noFeasibleNode, { s with pods := s.pods ++ [newPod pid req] }) ∧
    newPod pid req ∈ (launch_pod s pid req now).2.pods ∧
    newPod pid req ∈ reschedule_candidates (launch_pod s pid req now).2 := by
  have hany : s.pods.any (fun p => decide (p.pod_id = pid)) = false :=
    List.any_eq_false.mpr fun p hp => by simpa using hfresh p hp
  have hframe := schedule_pod_none_frame _ pid req hnofit
  have hmain : launch_pod s pid req now =
      (.noFeasibleNode, { s with pods := s.pods ++ [newPod pid req] }) := by
    unfold launch_pod
    rw [hany, if_neg hadm]
    simp only [Bool.false_eq_true, if_false]
    rw [hframe]
  refine ⟨hmain, ?_, ?_⟩
  · rw [hmain]
    exact List.mem_append_right _ (List.mem_singleton.mpr rfl)
  · rw [hmain]
    exact List.mem_filter.mpr
      ⟨List.mem_append_right _ (List.mem_singleton.mpr rfl), by simp [newPod]⟩

theorem c10_witness :
    launch_pod exNoFit "p1" 4 0 =
      (.noFeasibleNode, { exNoFit with pods := exNoFit.pods ++ [newPod "p1" 4] }) ∧
    newPod "p1" 4 ∈ (launch_pod exNoFit "p1" 4 0).2.pods ∧
    newPod "p1" 4 ∈ reschedule_candidates (launch_pod exNoFit "p1" 4 0).2 :=
  c10_failed_launch_keeps_pod exNoFit "p1" 4 0 (by decide) (by decide) (by decide)

/-! C1: the capacity bookkeeping invariant. -/

theorem podCpuSum_cons (q : Pod) (qs : List Pod) (m : String) :
    podCpuSum (q :: qs) m = (if q.node_id = some m then q.cpu else 0) + podCpuSum qs m := by
  unfold podCpuSum
  rw [List.map_cons, List.sum_cons]

/-- Evicting the pods of node `nid` does not change the assigned-cpu sum of
any other node. -/
theorem podCpuSum_evict (pods : List Pod) (nid m : String) (hm : m ≠ nid) :
    podCpuSum
      (pods.map fun p =>
        if p.node_id = some nid then { p with node_id := none, status := "pending" } else p)
      m = podCpuSum pods m := by
  unfold podCpuSum
  rw [List.map_map]
  refine congrArg _ (List.map_congr_left fun p _ => ?_)
  by_cases h : p.node_id = some nid
  · simp [Function.comp, h, Ne.symm hm]
  · simp [Function.comp, h]

/-- `fail_node` (and each failure-detector iteration) preserves the
invariant: the failed node becomes unhealthy and is exempt, every other
healthy node keeps both its cpu and its pod sum. -/
theorem Inv_fail (total : String → Int) (s : ClusterState) (nid : String)
    (h : Inv total s) : Inv total (fail_node_state s nid) := by
  intro n' hn' hstat
  unfold fail_node_state at hn'
  simp only [] at hn'
  obtain ⟨n, hn, rfl⟩ := List.mem_map.mp hn'
  by_cases hid : n.node_id = nid
  · rw [if_pos hid] at hstat
    simp at hstat
  · rw [if_neg hid] at hstat ⊢
    unfold fail_node_state
    simp only []
    rw [podCpuSum_evict _ _ _ hid]
    exact h n hn hstat

theorem Inv_foldl_fail (total : String → Int) (ids : List String) :
    ∀ s : ClusterState, Inv total s → Inv total (ids.foldl fail_node_state s) := by
  induction ids with
  | nil => exact fun s h => h
  | cons x xs ih => exact fun s h => ih _ (Inv_fail total s x h)

/-- One `heartbeat_checker` sweep preserves the invariant. -/
theorem Inv_sweep (total : String → Int) (s : ClusterState) (now : Int)
    (h : Inv total s) : Inv total (heartbeat_checker s now) :=
  Inv_foldl_fail total (staleNodeIds s now) s h

theorem firstFitSel_sound (req : Int) (nodes : List Node) (nid : String)
    (h : firstFitSel req nodes = some nid) :
    ∃ n ∈ nodes, n.node_id = nid ∧ req ≤ n.cpu := by
  induction nodes with
  | nil => simp [firstFitSel] at h
  | cons n rest ih =>
    simp only [firstFitSel] at h
    by_cases hc : req ≤ n.cpu
    · rw [if_pos hc] at h
      exact ⟨n, List.mem_cons_self n rest, Option.some.inj h, hc⟩
    · rw [if_neg hc] at h
      obtain ⟨m, hm, hid, hcpu⟩ := ih h
      exact ⟨m, List.mem_cons_of_mem n hm, hid, hcpu⟩

theorem bestFitGo_sound (req : Int) (nid : String) :
    ∀ (nodes : List Node) (best : Option String) (minCpu : Option Int),
      bestFitGo req best minCpu nodes = some nid →
      best = some nid ∨ ∃ n ∈ nodes, n.node_id = nid ∧ req ≤ n.cpu := by
  intro nodes
  induction nodes with
  | nil =>
    intro best minCpu h
    simp only [bestFitGo] at h
    exact Or.inl h
  | cons n rest ih =>
    intro best minCpu h
    simp only [bestFitGo] at h
    by_cases hc : req ≤ n.cpu ∧ ∀ m ∈ minCpu, n.cpu < m
    · rw [if_pos hc] at h
      rcases ih _ _ h with h1 | ⟨m, hm, hid, hcpu⟩
      · exact Or.inr ⟨n, List.mem_cons_self n rest, Option.some.inj h1, hc.1⟩
      · exact Or.inr ⟨m, List.mem_cons_of_mem n hm, hid, hcpu⟩
    · rw [if_neg hc] at h
      rcases ih _ _ h with h1 | ⟨m, hm, hid, hcpu⟩
      · exact Or.inl h1
      · exact Or.inr ⟨m, List.mem_cons_of_mem n hm, hid, hcpu⟩

theorem worstFitGo_sound (req : Int) (nid : String) :
    ∀ (nodes : List Node) (worst : Option String) (maxLeft : Int),
      worstFitGo req worst maxLeft nodes = some nid →
      worst = some nid ∨ ∃ n ∈ nodes, n.node_id = nid ∧ req ≤ n.cpu := by
  intro nodes
  induction nodes with
  | nil =>
    intro worst maxLeft h
    simp only [worstFitGo] at h
    exact Or.inl h
  | cons n rest ih =>
    intro worst maxLeft h
    simp only [worstFitGo] at h
    by_cases hc : req ≤ n.cpu ∧ maxLeft < n.cpu - req
    · rw [if_pos hc] at h
      rcases ih _ _ h with h1 | ⟨m, hm, hid, hcpu⟩
      · exact Or.inr ⟨n, List.mem_cons_self n rest, Option.some.inj h1, hc.1⟩
      · exact Or.inr ⟨m, List.mem_cons_of_mem n hm, hid, hcpu⟩
    · rw [if_neg hc] at h
      rcases ih _ _ h with h1 | ⟨m, hm, hid, hcpu⟩
      · exact Or.inl h1
      · exact Or.inr ⟨m, List.mem_cons_of_mem n hm, hid, hcpu⟩

/-- Whatever the strategy, a selected node id belongs to a node of the
candidate list with enough available cpu. -/
theorem selectNode_sound (strategy : String) (req : Int) (nodes : List Node)
    (nid : String) (h : selectNode strategy req nodes = some nid) :
    ∃ n ∈ nodes, n.node_id = nid ∧ req ≤ n.cpu := by
  unfold selectNode at h
  by_cases h1 : strategy = "first_fit"
  · rw [if_pos h1] at h
    exact firstFitSel_sound req nodes nid h
  · rw [if_neg h1] at h
    by_cases h2 : strategy = "best_fit"
    · rw [if_pos h2] at h
      rcases bestFitGo_sound req nid nodes none none h with h1 | h1
      · exact absurd h1 (by simp)
      · exact h1
    · rw [if_neg h2] at h
      by_cases h3 : strategy = "worst_fit"
      · rw [if_pos h3] at h
        rcases worstFitGo_sound req nid nodes none (-1) h with h1 | h1
        · exact absurd h1 (by simp)
        · exact h1
      · rw [if_neg h3] at h
        exact absurd h (by simp)

/-- With unique node ids, `find?` by id returns exactly the member node. -/
theorem find?_node_eq (l : List Node) (nid : String) (n0 : Node)
    (hnd : (l.map Node.node_id).Nodup) (hmem : n0 ∈ l) (hid : n0.node_id = nid) :
    l.find? (fun n => decide (n.node_id = nid)) = some n0 := by
  induction l with
  | nil => cases hmem
  | cons x xs ih =>
    rw [List.map_cons, List.nodup_cons] at hnd
    by_cases hx : x.node_id = nid
    · have hx0 : n0 = x := by
        rcases List.mem_cons.mp hmem with h | h
        · exact h
        · exact absurd
            (by rw [hx, ← hid]; exact List.mem_map_of_mem Node.node_id h) hnd.1
      rw [List.find?_cons_of_pos _ (by simpa using hx), hx0]
    · have hmem' : n0 ∈ xs := by
        rcases List.mem_cons.mp hmem with h | h
        · exact absurd (by rw [← h]; exact hid) hx
        · exact h
      rw [List.find?_cons_of_neg _ (by simpa using hx)]
      exact ih hnd.2 hmem'

/-- Assigning pending pod `pid` (cpu `req`) to node `nid` raises node `nid`'s
pod sum by `req` and leaves every other node's sum unchanged. -/
theorem podCpuSum_assign (pods : List Pod) (pid nid : String) (req : Int) (p0 : Pod)
    (hnd : (pods.map Pod.pod_id).Nodup) (hmem : p0 ∈ pods) (hpid : p0.pod_id = pid)
    (hpending : p0.node_id = none) (hcpu : p0.cpu = req) (m : String) :
    podCpuSum
      (pods.map fun p =>
        if p.pod_id = pid then { p with node_id := some nid, status := "running" } else p)
      m = podCpuSum pods m + (if m = nid then req else 0) := by
  induction pods with
  | nil => cases hmem
  | cons q qs ih =>
    rw [List.map_cons, List.nodup_cons] at hnd
    rcases List.mem_cons.mp hmem with hq | hq
    · subst hq
      have htail : (qs.map fun p =>
          if p.pod_id = pid then { p with node_id := some nid, status := "running" } else p) =
          qs :=
        map_eq_self_of_forall fun p hp => if_neg fun hpe =>
          hnd.1 (by rw [hpid, ← hpe]; exact List.mem_map_of_mem Pod.pod_id hp)
      rw [List.map_cons, podCpuSum_cons, podCpuSum_cons, if_pos hpid, htail]
      have h1 : (if ({ p0 with node_id := some nid, status := "running" } : Pod).node_id
            = some m then ({ p0 with node_id := some nid, status := "running" } : Pod).cpu
          else 0) = (if m = nid then req else 0) := by
        by_cases hmn : m = nid
        · subst hmn
          simp [hcpu]
        · have hns : ¬ (some nid = some m) := fun hc => hmn (Option.some.inj hc).symm
          simp only []
          rw [if_neg hns, if_neg hmn]
      have h2 : (if p0.node_id = some m then p0.cpu else 0) = 0 := by
        rw [hpending]
        simp
      rw [h1, h2]
      ring
    · have hqid : ¬ q.pod_id = pid := fun hqe =>
        hnd.1 (by rw [hqe, ← hpid]; exact List.mem_map_of_mem Pod.pod_id hq)
      rw [List.map_cons, podCpuSum_cons, podCpuSum_cons, if_neg hqid,
        ih hnd.2 hq]
      ring

/-- With unique node ids, two members sharing an id are equal. -/
theorem node_eq_of_id_eq (l : List Node) (hnd : (l.map Node.node_id).Nodup)
    (a b : Node) (ha : a ∈ l) (hb : b ∈ l) (h : a.node_id = b.node_id) : a = b :=
  List.inj_on_of_nodup_map hnd ha hb h

/-- `schedule_pod` preserves the invariant when called, as the repository
does, on an existing pending pod whose stored cpu is the request. -/
theorem Inv_place (total : String → Int) (s : ClusterState) (pid : String)
    (req : Int) (p0 : Pod)
    (hnodes : (s.nodes.map Node.node_id).Nodup)
    (hpods : (s.pods.map Pod.pod_id).Nodup)
    (hmem : p0 ∈ s.pods) (hpid : p0.pod_id = pid)
    (hpending : p0.node_id = none) (hcpu : p0.cpu = req)
    (h : Inv total s) : Inv total (schedule_pod s pid req).2 := by
  cases hsel : selectNode s.strategy req (healthyNodes s) with
  | none =>
    have hs : schedule_pod s pid req = (none, s) := by
      unfold schedule_pod
      rw [hsel]
    rw [hs]
    exact h
  | some nid =>
    by_cases hne : nid = ""
    · have hs : schedule_pod s pid req = (none, s) := by
        unfold schedule_pod
        rw [hsel]
        simp only []
        rw [if_pos hne]
      rw [hs]
      exact h
    · obtain ⟨n0, hn0mem, hn0id, hn0cpu⟩ := selectNode_sound _ _ _ _ hsel
      have hn0nodes : n0 ∈ s.nodes := (List.mem_filter.mp hn0mem).1
      have hn0healthy : n0.status = "healthy" := by
        have := (List.mem_filter.mp hn0mem).2
        simpa using this
      have hfind : s.nodes.find? (fun n => decide (n.node_id = nid)) = some n0 :=
        find?_node_eq s.nodes nid n0 hnodes hn0nodes hn0id
      have hs : schedule_pod s pid req =
          (some nid,
            { s with
              nodes := s.nodes.map fun n =>
                if n.node_id = nid then { n with cpu := n0.cpu - req } else n,
              pods := s.pods.map fun p =>
                if p.pod_id = pid then { p with node_id := some nid, status := "running" }
                else p }) := by
        unfold schedule_pod
        rw [hsel]
        simp only []
        rw [if_neg hne, hfind]
      rw [hs]
      intro n' hn' hstat
      simp only [] at hn'
      obtain ⟨n, hn, rfl⟩ := List.mem_map.mp hn'
      simp only []
      rw [podCpuSum_assign s.pods pid nid req p0 hpods hmem hpid hpending hcpu]
      by_cases hid : n.node_id = nid
      · have hn_eq : n = n0 :=
          node_eq_of_id_eq s.nodes hnodes n n0 hn hn0nodes (hid.trans hn0id.symm)
        subst hn_eq
        rw [if_pos hid] at hstat ⊢
        simp only [] at hstat ⊢
        have horig := h n hn hstat
        rw [if_pos hid]
        omega
      · rw [if_neg hid] at hstat ⊢
        have horig := h n hn hstat
        rw [if_neg hid]
        omega

/-- Claim C1: for every healthy node, availableCpu = totalCpu minus the sum
of the cpu requests of the pods assigned to it (`totalCpu` being the ghost
per-node constant the code never stores), and this is preserved by every
scheduling or eviction transition: `schedule_pod` at its in-repo call sites,
`fail_node`, and the `heartbeat_checker` sweep. -/
theorem c1_invariant_preserved (total : String → Int) (s s' : ClusterState)
    (hstep : ClusterStep s s') (hinv : Inv total s) : Inv total s' := by
  cases hstep with
  | place pid req p0 hnodes hpods hmem hpid hpending hcpu =>
    exact Inv_place total s pid req p0 hnodes hpods hmem hpid hpending hcpu hinv
  | fail nid => exact Inv_fail total s nid hinv
  | sweep now => exact Inv_sweep total s now hinv

theorem c1_witness : Inv exTotal (fail_node_state exInv "a") :=
  c1_invariant_preserved exTotal exInv (fail_node_state exInv "a")
    (ClusterStep.fail exInv "a") (by decide)

/-! C4: the best_fit selection rule. -/

theorem leftmostMinCpu_cons_ne_none (x : Node) (xs : List Node) :
    leftmostMinCpu (x :: xs) ≠ none := by
  unfold leftmostMinCpu
  cases hm : leftmostMinCpu xs with
  | none => simp
  | some m =>
    simp only []
    by_cases hc : x.cpu ≤ m.cpu
    · rw [if_pos hc]
      simp
    · rw [if_neg hc]
      simp

/-- The spec-side selector returns a minimum-cpu element of the list. -/
theorem leftmostMinCpu_spec (l : List Node) (n : Node)
    (h : leftmostMinCpu l = some n) : n ∈ l ∧ ∀ m ∈ l, n.cpu ≤ m.cpu := by
  induction l generalizing n with
  | nil => simp [leftmostMinCpu] at h
  | cons x xs ih =>
    unfold leftmostMinCpu at h
    cases hm : leftmostMinCpu xs with
    | none =>
      rw [hm] at h
      simp only [] at h
      obtain rfl := Option.some.inj h
      cases xs with
      | nil => exact ⟨List.mem_cons_self _ _, by simp⟩
      | cons y ys => exact absurd hm (leftmostMinCpu_cons_ne_none y ys)
    | some m =>
      rw [hm] at h
      simp only [] at h
      obtain ⟨hmem, hle⟩ := ih m hm
      by_cases hc : x.cpu ≤ m.cpu
      · rw [if_pos hc] at h
        obtain rfl := Option.some.inj h
        refine ⟨List.mem_cons_self _ _, fun y hy => ?_⟩
        rcases List.mem_cons.mp hy with rfl | hy
        · exact le_refl _
        · exact le_trans hc (hle y hy)
      · rw [if_neg hc] at h
        obtain rfl := Option.some.inj h
        refine ⟨List.mem_cons_of_mem _ hmem, fun y hy => ?_⟩
        rcases List.mem_cons.mp hy with rfl | hy
        · exact le_of_lt (lt_of_not_le hc)
        · exact hle y hy

/-- The spec-side selector returns the first minimum: every feasible node
before it has strictly larger cpu. -/
theorem leftmostMinCpu_first (l : List Node) (n : Node)
    (h : leftmostMinCpu l = some n) :
    ∃ l₁ l₂, l = l₁ ++ n :: l₂ ∧ ∀ m ∈ l₁, n.cpu < m.cpu := by
  induction l generalizing n with
  | nil => simp [leftmostMinCpu] at h
  | cons x xs ih =>
    unfold leftmostMinCpu at h
    cases hm : leftmostMinCpu xs with
    | none =>
      rw [hm] at h
      simp only [] at h
      obtain rfl := Option.some.inj h
      exact ⟨[], xs, rfl, by simp⟩
    | some m =>
      rw [hm] at h
      simp only [] at h
      by_cases hc : x.cpu ≤ m.cpu
      · rw [if_pos hc] at h
        obtain rfl := Option.some.inj h
        exact ⟨[], xs, rfl, by simp⟩
      · rw [if_neg hc] at h
        obtain rfl := Option.some.inj h
        obtain ⟨l₁, l₂, heq, hlt⟩ := ih m hm
        refine ⟨x :: l₁, l₂, by rw [heq, List.cons_append], fun y hy => ?_⟩
        rcases List.mem_cons.mp hy with rfl | hy
        · exact lt_of_not_le hc
        · exact hlt y hy

theorem leftmostMinCpu_cons_cons_of_le (cur n : Node) (l : List Node)
    (h : cur.cpu ≤ n.cpu) :
    leftmostMinCpu (cur :: n :: l) = leftmostMinCpu (cur :: l) := by
  show (match leftmostMinCpu (n :: l) with
    | none => some cur
    | some m => if cur.cpu ≤ m.cpu then some cur else some m) =
    (match leftmostMinCpu l with
    | none => some cur
    | some m => if cur.cpu ≤ m.cpu then some cur else some m)
  cases hm : leftmostMinCpu l with
  | none =>
    have : leftmostMinCpu (n :: l) = some n := by
      unfold leftmostMinCpu
      rw [hm]
    rw [this]
    simp only []
    rw [if_pos h]
  | some m =>
    have : leftmostMinCpu (n :: l) = if n.cpu ≤ m.cpu then some n else some m := by
      unfold leftmostMinCpu
      rw [hm]
    rw [this]
    by_cases hnm : n.cpu ≤ m.cpu
    · rw [if_pos hnm]
      simp only []
      rw [if_pos h, if_pos (le_trans h hnm)]
    · rw [if_neg hnm]

theorem leftmostMinCpu_cons_cons_of_lt (cur n : Node) (l : List Node)
    (h : n.cpu < cur.cpu) :
    leftmostMinCpu (cur :: n :: l) = leftmostMinCpu (n :: l) := by
  cases hm : leftmostMinCpu (n :: l) with
  | none => exact absurd hm (leftmostMinCpu_cons_ne_none n l)
  | some k =>
    have hk_le : k.cpu ≤ n.cpu :=
      (leftmostMinCpu_spec _ _ hm).2 n (List.mem_cons_self _ _)
    show (match leftmostMinCpu (n :: l) with
      | none => some cur
      | some m => if cur.cpu ≤ m.cpu then some cur else some m) = _
    rw [hm]
    simp only []
    rw [if_neg (not_le.mpr (lt_of_le_of_lt hk_le h))]

/-- The running-strict-minimum loop of the code, started on node `cur`,
computes the spec-side leftmost minimum of `cur` followed by the feasible
remainder. -/
theorem bestFitGo_acc (req : Int) :
    ∀ (nodes : List Node) (cur : Node),
      bestFitGo req (some cur.node_id) (some cur.cpu) nodes =
        (leftmostMinCpu (cur :: feasibleNodes req nodes)).map Node.node_id := by
  intro nodes
  induction nodes with
  | nil =>
    intro cur
    simp [bestFitGo, feasibleNodes, leftmostMinCpu]
  | cons n rest ih =>
    intro cur
    simp only [bestFitGo]
    by_cases hfeas : req ≤ n.cpu
    · have hfl : feasibleNodes req (n :: rest) = n :: feasibleNodes req rest := by
        simp [feasibleNodes, hfeas]
      rw [hfl]
      by_cases hlt : n.cpu < cur.cpu
      · rw [if_pos ⟨hfeas, by simpa using hlt⟩, ih n,
          leftmostMinCpu_cons_cons_of_lt cur n _ hlt]
      · rw [if_neg (fun hc => hlt (by simpa using hc.2)), ih cur,
          leftmostMinCpu_cons_cons_of_le cur n _ (le_of_not_lt hlt)]
    · have hfl : feasibleNodes req (n :: rest) = feasibleNodes req rest := by
        simp [feasibleNodes, hfeas]
      rw [hfl, if_neg (fun hc => hfeas hc.1), ih cur]

/-- The code's best_fit loop refines the spec-side selector. -/
theorem bestFitGo_spec (req : Int) (nodes : List Node) :
    bestFitGo req none none nodes = (bestFitSpec req nodes).map Node.node_id := by
  induction nodes with
  | nil => rfl
  | cons n rest ih =>
    simp only [bestFitGo]
    by_cases hfeas : req ≤ n.cpu
    · have hfl : feasibleNodes req (n :: rest) = n :: feasibleNodes req rest := by
        simp [feasibleNodes, hfeas]
      rw [if_pos ⟨hfeas, by simp⟩, bestFitGo_acc req rest n]
      unfold bestFitSpec
      rw [hfl]
    · have hfl : feasibleNodes req (n :: rest) = feasibleNodes req rest := by
        simp [feasibleNodes, hfeas]
      rw [if_neg (fun hc => hfeas hc.1), ih]
      unfold bestFitSpec
      rw [hfl]

/-- C4, counterexample: with the single healthy feasible node whose id is the
empty string, the claim demands it be selected and its cpu deducted, but
`schedule_pod` (via `if assigned_node:`) returns no node and mutates
nothing. -/
theorem c4_counterexample :
    (∃ n ∈ healthyNodes exEmptyId, 3 ≤ n.cpu) ∧
    schedule_pod exEmptyId "p" 3 = (none, exEmptyId) ∧
    (none : Option String) ≠ some "" := by
  refine ⟨⟨⟨"", 4, 0, "healthy"⟩, by decide, by decide⟩, rfl, by decide⟩

/-- C4, amended: under best_fit, the selected candidate is the feasible
healthy node of smallest availableCpu, ties to the first in iteration order;
if its id is non-empty the code deducts the request from that node and marks
the pod running on it, while an empty selected id is treated as no selection
(nothing is mutated). -/
theorem c4_best_fit (s : ClusterState) (pid : String) (req : Int)
    (hstrat : s.strategy = "best_fit")
    (hnd : (s.nodes.map Node.node_id).Nodup) :
    match bestFitSpec req (healthyNodes s) with
    | none => schedule_pod s pid req = (none, s)
    | some n0 =>
        n0 ∈ healthyNodes s ∧ req ≤ n0.cpu ∧
        (∀ m ∈ healthyNodes s, req ≤ m.cpu → n0.cpu ≤ m.cpu) ∧
        (∃ l₁ l₂, feasibleNodes req (healthyNodes s) = l₁ ++ n0 :: l₂ ∧
          ∀ m ∈ l₁, n0.cpu < m.cpu) ∧
        (n0.node_id = "" → schedule_pod s pid req = (none, s)) ∧
        (n0.node_id ≠ "" →
          schedule_pod s pid req =
            (some n0.node_id,
              { s with
                nodes := s.nodes.map fun n =>
                  if n.node_id = n0.node_id then { n with cpu := n0.cpu - req } else n,
                pods := s.pods.map fun p =>
                  if p.pod_id = pid then
                    { p with node_id := some n0.node_id, status := "running" }
                  else p })) := by
  have hsel : selectNode s.strategy req (healthyNodes s) =
      (bestFitSpec req (healthyNodes s)).map Node.node_id := by
    rw [hstrat]
    unfold selectNode
    rw [if_neg (by decide), if_pos rfl]
    exact bestFitGo_spec req (healthyNodes s)
  cases hspec : bestFitSpec req (healthyNodes s) with
  | none =>
    simp only []
    have hsel' : selectNode s.strategy req (healthyNodes s) = none := by
      rw [hsel, hspec]
      rfl
    unfold schedule_pod
    rw [hsel']
  | some n0 =>
    simp only []
    have hsel' : selectNode s.strategy req (healthyNodes s) = some n0.node_id := by
      rw [hsel, hspec]
      rfl
    have hlm : leftmostMinCpu (feasibleNodes req (healthyNodes s)) = some n0 := hspec
    obtain ⟨hfmem, hfmin⟩ := leftmostMinCpu_spec _ _ hlm
    have hmemh : n0 ∈ healthyNodes s := (List.mem_filter.mp hfmem).1
    have hreq : req ≤ n0.cpu := by
      have := (List.mem_filter.mp hfmem).2
      simpa using this
    have hminAll : ∀ m ∈ healthyNodes s, req ≤ m.cpu → n0.cpu ≤ m.cpu := fun m hm hr =>
      hfmin m (List.mem_filter.mpr ⟨hm, by simpa using hr⟩)
    refine ⟨hmemh, hreq, hminAll, leftmostMinCpu_first _ _ hlm, ?_, ?_⟩
    · intro hempty
      unfold schedule_pod
      rw [hsel']
      simp only []
      rw [if_pos hempty]
    · intro hnonempty
      have hn0nodes : n0 ∈ s.nodes := (List.mem_filter.mp hmemh).1
      have hfind := find?_node_eq s.nodes n0.node_id n0 hnd hn0nodes rfl
      unfold schedule_pod
      rw [hsel']
      simp only []
      rw [if_neg hnonempty, hfind]

theorem c4_witness :
    (schedule_pod exBestFit "p1" 3).1 = some "B" ∧
    (schedule_pod exBestFit "p1" 3).2.nodes =
      [⟨"A", 10, 0, "healthy"⟩, ⟨"B", 1, 0, "healthy"⟩] ∧
    (schedule_pod exBestFit "p1" 3).2.pods = [⟨"p1", 3, some "B", "running"⟩] := by
  have h := c4_best_fit exBestFit "p1" 3 rfl (by decide)
  rw [show bestFitSpec 3 (healthyNodes exBestFit) =
    some ⟨"B", 4, 0, "healthy"⟩ from rfl] at h
  simp only [] at h
  have h2 := h.2.2.2.2.2 (by decide)
  rw [h2]
  exact ⟨rfl, rfl, rfl⟩

/-! C6: sticky leader selection. -/

theorem charListLt_irrefl : ∀ l : List Char, charListLt l l = false
  | [] => rfl
  | a :: as => by
    simp only [charListLt]
    rw [if_neg (lt_irrefl _), if_neg (lt_irrefl _)]
    exact charListLt_irrefl as

theorem charListLt_trans :
    ∀ l₁ l₂ l₃ : List Char, charListLt l₁ l₂ = true → charListLt l₂ l₃ = true →
      charListLt l₁ l₃ = true := by
  intro l₁
  induction l₁ with
  | nil =>
    intro l₂ l₃ h1 h2
    cases l₂ with
    | nil => simp [charListLt] at h1
    | cons b bs =>
      cases l₃ with
      | nil => simp [charListLt] at h2
      | cons c cs => simp [charListLt]
  | cons a as ih =>
    intro l₂ l₃ h1 h2
    cases l₂ with
    | nil => simp [charListLt] at h1
    | cons b bs =>
      cases l₃ with
      | nil => simp [charListLt] at h2
      | cons c cs =>
        simp only [charListLt] at h1 h2 ⊢
        by_cases hab : a.toNat < b.toNat
        · by_cases hbc : b.toNat < c.toNat
          · rw [if_pos (by omega)]
          · rw [if_neg hbc] at h2
            by_cases hcb : c.toNat < b.toNat
            · rw [if_pos hcb] at h2
              cases h2
            · rw [if_pos (by omega)]
        · rw [if_neg hab] at h1
          by_cases hba : b.toNat < a.toNat
          · rw [if_pos hba] at h1
            cases h1
          · rw [if_neg hba] at h1
            by_cases hbc : b.toNat < c.toNat
            · rw [if_pos (by omega)]
            · rw [if_neg hbc] at h2
              by_cases hcb : c.toNat < b.toNat
              · rw [if_pos hcb] at h2
                cases h2
              · rw [if_neg hcb] at h2
                rw [if_neg (by omega), if_neg (by omega)]
                exact ih bs cs h1 h2

theorem charListLt_antisymm :
    ∀ l₁ l₂ : List Char, charListLt l₁ l₂ = false → charListLt l₂ l₁ = false →
      l₁ = l₂ := by
  intro l₁
  induction l₁ with
  | nil =>
    intro l₂ h1 h2
    cases l₂ with
    | nil => rfl
    | cons b bs => simp [charListLt] at h1
  | cons a as ih =>
    intro l₂ h1 h2
    cases l₂ with
    | nil => simp [charListLt] at h2
    | cons b bs =>
      simp only [charListLt] at h1 h2
      by_cases hab : a.toNat < b.toNat
      · rw [if_pos hab] at h1
        cases h1
      · rw [if_neg hab] at h1
        by_cases hba : b.toNat < a.toNat
        · rw [if_pos hba] at h2
          cases h2
        · rw [if_neg hba] at h1
          rw [if_neg hba, if_neg hab] at h2
          have hc : a = b := by
            have hn : a.toNat = b.toNat := by omega
            have hv : a.val = b.val := UInt32.toNat.inj hn
            cases a
            cases b
            simp_all
          rw [hc, ih bs h1 h2]

theorem strLt_irrefl (s : String) : strLt s s = false := charListLt_irrefl s.data

theorem strLt_trans {a b c : String} (h1 : strLt a b = true)
    (h2 : strLt b c = true) : strLt a c = true :=
  charListLt_trans _ _ _ h1 h2

theorem strLt_antisymm {a b : String} (h1 : strLt a b = false)
    (h2 : strLt b a = false) : a = b := by
  have hd := charListLt_antisymm a.data b.data h1 h2
  cases a
  cases b
  simp_all

theorem strLt_asymm {a b : String} (h : strLt a b = true) : strLt b a = false := by
  cases hba : strLt b a with
  | false => rfl
  | true =>
    have hq := strLt_trans h hba
    rw [strLt_irrefl] at hq
    cases hq

theorem strLt_false_trans {a b c : String} (h1 : strLt b a = false)
    (h2 : strLt c b = false) : strLt c a = false := by
  cases hca : strLt c a with
  | false => rfl
  | true =>
    exfalso
    cases hbc : strLt b c with
    | true =>
      have hq := strLt_trans hbc hca
      rw [h1] at hq
      cases hq
    | false =>
      have hbceq : b = c := strLt_antisymm hbc h2
      rw [← hbceq, h1] at hca
      cases hca

theorem minId_cons_ne_none (a : String) (as : List String) :
    minId (a :: as) ≠ none := by
  unfold minId
  cases hm : minId as with
  | none => simp
  | some y =>
    simp only []
    by_cases hc : strLt y a = true
    · rw [if_pos hc]
      simp
    · rw [if_neg hc]
      simp

theorem minId_mem (l : List String) (x : String) (h : minId l = some x) :
    x ∈ l := by
  induction l generalizing x with
  | nil => simp [minId] at h
  | cons a as ih =>
    unfold minId at h
    cases hm : minId as with
    | none =>
      rw [hm] at h
      simp only [] at h
      obtain rfl := Option.some.inj h
      exact List.mem_cons_self _ _
    | some y =>
      rw [hm] at h
      simp only [] at h
      by_cases hc : strLt y a = true
      · rw [if_pos hc] at h
        obtain rfl := Option.some.inj h
        exact List.mem_cons_of_mem _ (ih _ hm)
      · rw [if_neg hc] at h
        obtain rfl := Option.some.inj h
        exact List.mem_cons_self _ _

/-- No member of the list sorts strictly before the `minId` result. -/
theorem minId_le (l : List String) (x : String) (h : minId l = some x) :
    ∀ y ∈ l, strLt y x = false := by
  induction l generalizing x with
  | nil => simp [minId] at h
  | cons a as ih =>
    unfold minId at h
    cases hm : minId as with
    | none =>
      rw [hm] at h
      simp only [] at h
      obtain rfl := Option.some.inj h
      intro y hy
      rcases List.mem_cons.mp hy with rfl | hy
      · exact strLt_irrefl _
      · cases as with
        | nil => cases hy
        | cons b bs => exact absurd hm (minId_cons_ne_none b bs)
    | some y0 =>
      rw [hm] at h
      simp only [] at h
      by_cases hc : strLt y0 a = true
      · rw [if_pos hc] at h
        obtain rfl := Option.some.inj h
        intro y hy
        rcases List.mem_cons.mp hy with rfl | hy
        · exact strLt_asymm hc
        · exact ih y0 hm y hy
      · rw [if_neg hc] at h
        obtain rfl := Option.some.inj h
        intro y hy
        rcases List.mem_cons.mp hy with rfl | hy
        · exact strLt_irrefl _
        · exact strLt_false_trans (Bool.eq_false_iff.mpr hc) (ih y0 hm y hy)

/-- C6, counterexample: with the single healthy node of empty id and recorded
leader `"none"` (which is no healthy node), the claim demands the elected
empty id be persisted as the new leader, but `if new_leader:` is falsy for
the empty string: the handler returns `""` while the stored leader stays
`"none"`. -/
theorem c6_counterexample :
    (leaderOp exLeaderEmptyId).1 = "" ∧
    (leaderOp exLeaderEmptyId).2.leader = "none" ∧
    ("none" : String) ≠ "" := by
  refine ⟨rfl, rfl, by decide⟩

/-- C6, amended: if the recorded leader is (non-empty and) a healthy node it
is returned unchanged with no state change; otherwise the handler returns the
lexicographically smallest healthy node id, persisting it only when it is
non-empty; with no healthy node it returns and persists the sentinel
`"none"`. -/
theorem c6_sticky_leader (s : ClusterState) :
    ((s.leader ≠ "" ∧ ∃ n ∈ s.nodes, n.node_id = s.leader ∧ n.status = "healthy") →
      leaderOp s = (s.leader, s)) ∧
    (¬ (s.leader ≠ "" ∧ ∃ n ∈ s.nodes, n.node_id = s.leader ∧ n.status = "healthy") →
      match minId ((healthyNodes s).map Node.node_id) with
      | none => leaderOp s = ("none", { s with leader := "none" })
      | some L =>
          (∃ n ∈ s.nodes, n.node_id = L ∧ n.status = "healthy") ∧
          (∀ n ∈ s.nodes, n.status = "healthy" → strLt n.node_id L = false) ∧
          (leaderOp s).1 = L ∧
          (L ≠ "" → (leaderOp s).2 = { s with leader := L }) ∧
          (L = "" → (leaderOp s).2 = s)) := by
  have hbridge : (s.nodes.any
      (fun n => decide (n.node_id = s.leader ∧ n.status = "healthy")) = true) ↔
      ∃ n ∈ s.nodes, n.node_id = s.leader ∧ n.status = "healthy" := by
    rw [List.any_eq_true]
    simp
  constructor
  · rintro ⟨hne, hex⟩
    unfold leaderOp
    rw [if_pos ⟨hne, hbridge.mpr hex⟩]
  · intro hneg
    have hcond : ¬ (s.leader ≠ "" ∧ s.nodes.any
        (fun n => decide (n.node_id = s.leader ∧ n.status = "healthy")) = true) :=
      fun hc => hneg ⟨hc.1, hbridge.mp hc.2⟩
    have hval : leaderOp s =
        (let newL := (minId ((healthyNodes s).map Node.node_id)).getD "none"
         if newL ≠ "" then (newL, { s with leader := newL }) else (newL, s)) := by
      unfold leaderOp
      rw [if_neg hcond]
    cases hm : minId ((healthyNodes s).map Node.node_id) with
    | none =>
      rw [hm] at hval
      simp only [Option.getD_none] at hval
      rw [if_pos (by decide : ("none" : String) ≠ "")] at hval
      exact hval
    | some L =>
      rw [hm] at hval
      simp only [Option.getD_some] at hval
      have hLmem : L ∈ (healthyNodes s).map Node.node_id := minId_mem _ _ hm
      obtain ⟨n, hn, hnid⟩ := List.mem_map.mp hLmem
      refine ⟨⟨n, (List.mem_filter.mp hn).1, hnid,
        by have := (List.mem_filter.mp hn).2; simpa using this⟩, ?_, ?_, ?_, ?_⟩
      · intro n' hn' hstat
        exact minId_le _ _ hm n'.node_id
          (List.mem_map_of_mem Node.node_id
            (List.mem_filter.mpr ⟨hn', by simpa using hstat⟩))
      · by_cases hLe : L = ""
        · rw [if_neg (by simpa using hLe)] at hval
          rw [hval]
        · rw [if_pos hLe] at hval
          rw [hval]
      · intro hLe
        rw [if_pos hLe] at hval
        rw [hval]
      · intro hLe
        rw [if_neg (by simpa using hLe)] at hval
        rw [hval]

theorem c6_witness :
    (¬ (exLeader.leader ≠ "" ∧
      ∃ n ∈ exLeader.nodes, n.node_id = exLeader.leader ∧ n.status = "healthy")) ∧
    (leaderOp exLeader).1 = "b" ∧
    (leaderOp exLeader).2.leader = "b" := by
  have h := (c6_sticky_leader exLeader).2 (by decide)
  rw [show minId ((healthyNodes exLeader).map Node.node_id) =
    some "b" from by decide] at h
  simp only [] at h
  exact ⟨by decide, h.2.2.1, by rw [h.2.2.2.1 (by decide)]⟩

end KubeSim
